import Mathlib

/-!
Shallow embedding of the ASN1_Codec message-relay worker (src/acm.cpp) and
proofs of the specification's claims about it.

The embedding keeps the source's names.  External collaborators (librdkafka,
the asn1c codec) appear only through their observable outcomes: each polled
message carries its broker status code together with the outcomes of the
decode / encode / produce calls the worker would make for it, and the
configuration acceptance tests of `RdKafka::Conf::set` are abstract boolean
parameters.
-/

/-- Broker status codes distinguished by ASN1_Codec::msg_consume
(acm.cpp 483-574): the five labelled cases and the default case. -/
inductive MsgStatus where
  | timedOut
  | noError
  | partitionEOF
  | unknownTopic
  | unknownPartition
  | otherError
deriving DecidableEq

/-- One polled message together with the outcomes of the external calls made
for it: `decode_ok` is whether data_decode_from_buffer returns a structure
(acm.cpp 528), `encode_ok` whether xer_buf returns zero (acm.cpp 540),
`xer_len` the buffer size xer_buf leaves in the xer_buffer, and `produce_ok`
whether producer_ptr->produce returns ERR_NO_ERROR (acm.cpp 761-763). -/
structure MsgEvent where
  status : MsgStatus
  len : Nat
  decode_ok : Bool
  encode_ok : Bool
  xer_len : Nat
  produce_ok : Bool
deriving DecidableEq

/-- The mutable worker state touched by msg_consume and the consume-produce
loop: the counters, the EOF accounting, the static `data_available` flag and
the streaming-decode flag `first_block` (acm.cpp 109-147). -/
structure CodecState where
  exit_eof : Bool
  eof_cnt : Nat
  partition_cnt : Nat
  msg_recv_count : Nat
  msg_send_count : Nat
  msg_filt_count : Nat
  msg_recv_bytes : Nat
  msg_send_bytes : Nat
  msg_filt_bytes : Nat
  data_available : Bool
  first_block : Bool
deriving DecidableEq

/-- The constructor's initial state (acm.cpp 115-147). -/
def initState : CodecState :=
  { exit_eof := true
    eof_cnt := 0
    partition_cnt := 1
    msg_recv_count := 0
    msg_send_count := 0
    msg_filt_count := 0
    msg_recv_bytes := 0
    msg_send_bytes := 0
    msg_filt_bytes := 0
    data_available := true
    first_block := true }

/-- ASN1_Codec::msg_consume (acm.cpp 464-577) as a state transition.  The
returned Bool is the C++ return value: true only on the "good data" exit
after a successful decode and encode.  On ERR_NO_ERROR the received counters
are bumped, the decoder is invoked, and only a successful decode clears
first_block; xer_buf failure then returns false.  On ERR__PARTITION_EOF the
EOF accounting runs when exit_eof is set.  ERR__UNKNOWN_TOPIC falls through
into the ERR__UNKNOWN_PARTITION handling (no break at acm.cpp 564), so both
clear data_available, as does the default case. -/
def msg_consume (s : CodecState) (m : MsgEvent) : CodecState × Bool :=
  match m.status with
  | .timedOut => (s, false)
  | .noError =>
      let s1 := { s with
        msg_recv_count := s.msg_recv_count + 1
        msg_recv_bytes := s.msg_recv_bytes + m.len }
      if m.decode_ok then
        let s2 := { s1 with first_block := false }
        if m.encode_ok then (s2, true) else (s2, false)
      else (s1, false)
  | .partitionEOF =>
      if s.exit_eof then
        let s1 := { s with eof_cnt := s.eof_cnt + 1 }
        if s1.eof_cnt = s.partition_cnt then
          ({ s1 with data_available := false }, false)
        else (s1, false)
      else (s, false)
  | .unknownTopic => ({ s with data_available := false }, false)
  | .unknownPartition => ({ s with data_available := false }, false)
  | .otherError => ({ s with data_available := false }, false)

/-- One iteration of the consume-produce loop body (acm.cpp 751-778):
msg_consume runs only when the polled message's length is strictly positive
(the short-circuit at acm.cpp 758); on a true return the buffer is handed to
produce, and only a successful produce bumps the send counters.  The second
component is `some n` exactly when produce was invoked with a buffer of n
bytes. -/
def relay_step (s : CodecState) (m : MsgEvent) : CodecState × Option Nat :=
  if 0 < m.len then
    let r := msg_consume s m
    if r.2 then
      if m.produce_ok then
        ({ r.1 with
            msg_send_count := r.1.msg_send_count + 1
            msg_send_bytes := r.1.msg_send_bytes + m.xer_len }, some m.xer_len)
      else (r.1, some m.xer_len)
    else (r.1, none)
  else (s, none)

/-- Iterated msg_consume over a sequence of messages, keeping the state. -/
def msg_consume_run (s : CodecState) (ms : List MsgEvent) : CodecState :=
  ms.foldl (fun t m => (msg_consume t m).1) s

/-- Whether a message's broker status is ERR__PARTITION_EOF. -/
def isEOF (m : MsgEvent) : Bool :=
  match m.status with
  | .partitionEOF => true
  | _ => false

/-- The number of PARTITION_EOF statuses in a message sequence. -/
def eofCount (ms : List MsgEvent) : Nat := (ms.filter isEOF).length

/-- Statuses that do not take the fatal branches of msg_consume (those fatal
branches clear data_available for a reason other than EOF accounting). -/
def benignStatus (m : MsgEvent) : Bool :=
  match m.status with
  | .timedOut => true
  | .noError => true
  | .partitionEOF => true
  | _ => false

/-- The exit codes of stdlib.h as used by ASN1_Codec::operator(). -/
def EXIT_SUCCESS : Int := 0

/-- EXIT_FAILURE of stdlib.h. -/
def EXIT_FAILURE : Int := 1

/-- What a run of operator() reports: the process exit status and which
session launches were attempted. -/
structure RunOutcome where
  exit_status : Int
  consumer_launch_attempted : Bool
  producer_launch_attempted : Bool
deriving DecidableEq

/-- ASN1_Codec::operator() control flow (acm.cpp 724-789) reduced to the
outcomes of configure / launch_consumer / launch_producer.  A configure
failure or throw returns EXIT_FAILURE (acm.cpp 735, 741).  The two
session-launch failure paths execute the statement `return false;` inside a
function whose return type is int (acm.cpp 744-745), so the status returned
there is the integer conversion of the C++ bool `false`, written here as
Bool.toNat false.  A completed loop returns EXIT_SUCCESS. -/
def operator_run (configure_ok consumer_ok producer_ok : Bool) : RunOutcome :=
  if !configure_ok then
    { exit_status := EXIT_FAILURE
      consumer_launch_attempted := false
      producer_launch_attempted := false }
  else if !consumer_ok then
    { exit_status := ((Bool.toNat false : Nat) : Int)
      consumer_launch_attempted := true
      producer_launch_attempted := false }
  else if !producer_ok then
    { exit_status := ((Bool.toNat false : Nat) : Int)
      consumer_launch_attempted := true
      producer_launch_attempted := true }
  else
    { exit_status := EXIT_SUCCESS
      consumer_launch_attempted := true
      producer_launch_attempted := true }

/-- A NO_ERROR message whose decode fails. -/
def decodeFailEvt : MsgEvent :=
  { status := .noError, len := 10, decode_ok := false, encode_ok := true
    xer_len := 0, produce_ok := true }

/-- A NO_ERROR message whose decode and encode succeed. -/
def decodeOkEvt : MsgEvent :=
  { status := .noError, len := 10, decode_ok := true, encode_ok := true
    xer_len := 20, produce_ok := true }

/-- A PARTITION_EOF message (such broker messages carry no payload). -/
def eofEvt : MsgEvent :=
  { status := .partitionEOF, len := 0, decode_ok := false, encode_ok := false
    xer_len := 0, produce_ok := false }

/-- The first_block value passed to each decoder invocation over a message
sequence: data_decode_from_buffer is called once per ERR_NO_ERROR message,
with the current value of the first_block member (acm.cpp 528). -/
def decode_flags (s : CodecState) : List MsgEvent → List Bool
  | [] => []
  | m :: ms =>
      match m.status with
      | .noError => s.first_block :: decode_flags (msg_consume s m).1 ms
      | _ => decode_flags (msg_consume s m).1 ms

/-- Whether a message triggers a decoder invocation (ERR_NO_ERROR case). -/
def isDecodeCall (m : MsgEvent) : Bool :=
  match m.status with
  | .noError => true
  | _ => false

/-- The decode outcomes of the successive decoder invocations. -/
def decodeOutcomes (ms : List MsgEvent) : List Bool :=
  (ms.filter isDecodeCall).map (fun m => m.decode_ok)

/-- Reference trace of a one-bit continuity flag: starting from fb, each call
sees the current flag, and the flag stays set exactly until the first
successful call. -/
def firstBlockTrace (fb : Bool) : List Bool → List Bool
  | [] => []
  | ok :: rest => fb :: firstBlockTrace (fb && !ok) rest

-- ----------------------------------------------------------------------
-- Configuration model (ASN1_Codec::configure, acm.cpp 283-462)
-- ----------------------------------------------------------------------

/-- Kafka symbolic constants of rdkafkacpp.h used by acm.cpp. -/
def OFFSET_BEGINNING : Int := -2

/-- RdKafka::Topic::OFFSET_END. -/
def OFFSET_END : Int := -1

/-- RdKafka::Topic::OFFSET_STORED. -/
def OFFSET_STORED : Int := -1000

/-- RdKafka::Topic::PARTITION_UA (unassigned). -/
def PARTITION_UA : Int := -1

/-- Value of a decimal digit character, none for any other character. -/
def digitVal (c : Char) : Option Nat :=
  if c.isDigit then some (c.toNat - Char.toNat '0') else none

/-- Value of the longest leading digit run, read left to right. -/
def digitsAcc (acc : Nat) : List Char → Nat
  | [] => acc
  | c :: cs =>
      match digitVal c with
      | some d => digitsAcc (10 * acc + d) cs
      | none => acc

/-- Value of a leading digit run; none when the first character is not a
decimal digit (no conversion could be performed). -/
def digitsNum : List Char → Option Nat
  | [] => none
  | c :: cs =>
      match digitVal c with
      | some _ => some (digitsAcc 0 (c :: cs))
      | none => none

/-- C/C++ decimal prefix parse shared by std::stoi and strtoll: skip leading
whitespace, an optional sign, then the longest digit run; none when no digits
follow. -/
def parseIntPrefix (s : String) : Option Int :=
  let ws := fun c => c = ' ' || c = '\t' || c = '\n' || c = '\r'
  match s.data.dropWhile ws with
  | '-' :: rest => (digitsNum rest).map (fun n => -(n : Int))
  | '+' :: rest => (digitsNum rest).map (fun n => (n : Int))
  | rest => (digitsNum rest).map (fun n => (n : Int))

/-- std::stoi as called on configuration values (acm.cpp 379, 450): a failed
conversion throws std::invalid_argument, modelled as none.  Out-of-range
values are not modelled. -/
def stoi (s : String) : Option Int := parseIntPrefix s

/-- strtoll with base 10 as called at acm.cpp 402: the same prefix parse, but
a failed conversion returns 0 instead of throwing (the `// throws` comment on
that line notwithstanding, strtoll is a C function and never throws). -/
def strtoll (s : String) : Int := (parseIntPrefix s).getD 0

/-- An RdKafka::Conf modelled as the list of accepted key/value sets, most
recent first; lookup returns the most recent value for a key. -/
abbrev ConfMap := List (String × String)

/-- The three configuration stores after file ingestion: the topic-level conf
(tconf), the broker-level conf (conf) and the application-specific map
(pconf). -/
structure ConfState where
  tconf : ConfMap
  conf : ConfMap
  pconf : ConfMap
deriving DecidableEq

/-- Conf::set for a CLI-supplied value: the pair is stored when the conf
accepts the key (acceptance is the abstract parameter acc). -/
def confSet (m : ConfMap) (acc : String → String → Bool) (k v : String) : ConfMap :=
  if acc k v then (k, v) :: m else m

/-- Ingestion of one well-formed key=value line (acm.cpp 335-356): the pair
is offered to tconf->set, then to conf->set; when neither accepts it is
stored in pconf. -/
def ingestPair (tAcc cAcc : String → String → Bool) (st : ConfState)
    (kv : String × String) : ConfState :=
  let t := tAcc kv.1 kv.2
  let c := cAcc kv.1 kv.2
  let st1 := if t then { st with tconf := kv :: st.tconf } else st
  let st2 := if c then { st1 with conf := kv :: st1.conf } else st1
  if t || c then st2 else { st2 with pconf := kv :: st2.pconf }

/-- The file-reading loop (acm.cpp 330-362) over the well-formed key=value
pairs of the file, in order.  Blank lines, comment lines and lines that do
not split into exactly two fields are skipped by the loop and so do not
appear in the input list. -/
def ingestFile (tAcc cAcc : String → String → Bool)
    (pairs : List (String × String)) : ConfState :=
  pairs.foldl (ingestPair tAcc cAcc) { tconf := [], conf := [], pconf := [] }

/-- Which of the three stores receive a given pair, observed from the effect
of ingesting it into empty stores. -/
def classifyPair (tAcc cAcc : String → String → Bool) (k v : String) :
    Bool × Bool × Bool :=
  let st := ingestPair tAcc cAcc { tconf := [], conf := [], pconf := [] } (k, v)
  (!st.tconf.isEmpty, !st.conf.isEmpty, !st.pconf.isEmpty)

/-- How many stores a pair landed in. -/
def storeCount (r : Bool × Bool × Bool) : Nat :=
  r.1.toNat + r.2.1.toNat + r.2.2.toNat

/-- The command-line options configure() reads (acm.cpp main 797-811): an
option is `some v` when it was supplied.  `x` is getOption of x .isSet()
and `c_set` whether the mandatory configuration-file option was given. -/
structure CliOpts where
  c_set : Bool
  b : Option String
  p : Option Int
  g : Option String
  o : Option String
  x : Bool
  d : Option String
  t : Option String
deriving DecidableEq

/-- The member fields configure() resolves before returning true. -/
structure ConfigResult where
  st : ConfState
  partition : Int
  offset : Int
  exit_eof : Bool
  consumed_topics : List String
  published_topic_name : String
  consumer_timeout : Int
deriving DecidableEq

/-- The partition value the configuration file yields when the CLI does not
supply one (acm.cpp 376-381): the pconf entry parsed by std::stoi, or
PARTITION_UA when the key is absent. -/
def filePartition (st : ConfState) : Option Int :=
  match st.pconf.lookup "asn1.j2735.kafka.partition" with
  | some v => stoi v
  | none => some PARTITION_UA

/-- The offset a CLI -o argument resolves to (acm.cpp 391-406). -/
def cliOffset (ov : String) : Int :=
  if ov = "end" then OFFSET_END
  else if ov = "beginning" then OFFSET_BEGINNING
  else if ov = "stored" then OFFSET_STORED
  else strtoll ov

/-- The CLI broker override (acm.cpp 366-370): applied only when -b was
supplied; the return value of conf->set is ignored there. -/
def applyBroker (cAcc : String → String → Bool) (st : ConfState) :
    Option String → ConfState
  | some bv => { st with conf := confSet st.conf cAcc "metadata.broker.list" bv }
  | none => st

/-- Partition resolution (acm.cpp 372-383): the -p value when supplied,
otherwise the file-derived value (whose std::stoi may throw, i.e. none). -/
def resolvePartition (st : ConfState) : Option Int → Option Int
  | some n => some n
  | none => filePartition st

/-- The group id override (acm.cpp 385-389): when -g was supplied,
conf->set("group.id", ...) must succeed or configure returns false. -/
def applyGroup (cAcc : String → String → Bool) (st : ConfState) :
    Option String → Option ConfState
  | some gv =>
      if cAcc "group.id" gv then
        some { st with conf := confSet st.conf cAcc "group.id" gv }
      else none
  | none => some st

/-- Offset resolution (acm.cpp 391-406): the -o value when supplied,
otherwise the constructor default OFFSET_BEGINNING (acm.cpp 134). -/
def resolveOffset : Option String → Int
  | some ov => cliOffset ov
  | none => OFFSET_BEGINNING

/-- The debug override (acm.cpp 411-414): when -d was supplied,
conf->set("debug", ...) must succeed or configure returns false. -/
def applyDebug (cAcc : String → String → Bool) (st : ConfState) :
    Option String → Option ConfState
  | some dv =>
      if cAcc "debug" dv then
        some { st with conf := confSet st.conf cAcc "debug" dv }
      else none
  | none => some st

/-- Producer topic resolution (acm.cpp 430-443): the -t value when supplied,
otherwise the pconf entry; none is fatal. -/
def resolveProducer (st : ConfState) : Option String → Option String
  | some tv => some tv
  | none => st.pconf.lookup "asn1.j2735.topic.producer"

/-- Consumer timeout resolution (acm.cpp 447-454): the pconf entry parsed by
std::stoi inside a try block whose catch keeps the constructor default of
500 ms (acm.cpp 139). -/
def resolveTimeout (st : ConfState) : Int :=
  match st.pconf.lookup "asn1.j2735.consumer.timeout.ms" with
  | some tv => (stoi tv).getD 500
  | none => 500

/-- ASN1_Codec::configure (acm.cpp 283-462).  fileOpens is whether the
ifstream on the configuration file opened.  The result is none when configure
returns false or throws (std::stoi at acm.cpp 379).  Logging, the 'v'
option and the default_topic_conf pointer set at acm.cpp 417 have no
modelled state.  The fixed order of the source is kept: file ingestion, then
broker, partition, group id, offset, exit-on-eof (assigned from -x presence
unconditionally, acm.cpp 409), debug, consumer topic, producer topic,
consumer timeout. -/
def configure (tAcc cAcc : String → String → Bool) (fileOpens : Bool)
    (pairs : List (String × String)) (cli : CliOpts) : Option ConfigResult :=
  if !cli.c_set then none
  else if !fileOpens then none
  else
    let st0 := ingestFile tAcc cAcc pairs
    let st1 := applyBroker cAcc st0 cli.b
    (resolvePartition st1 cli.p).bind fun part =>
      (applyGroup cAcc st1 cli.g).bind fun st2 =>
        let off := resolveOffset cli.o
        let xeof := cli.x
        (applyDebug cAcc st2 cli.d).bind fun st3 =>
          (st3.pconf.lookup "asn1.j2735.topic.consumer").bind fun ct =>
            (resolveProducer st3 cli.t).bind fun pub =>
              some { st := st3
                     partition := part
                     offset := off
                     exit_eof := xeof
                     consumed_topics := [ct]
                     published_topic_name := pub
                     consumer_timeout := resolveTimeout st3 }

/-- The exit_eof member's constructor value (acm.cpp 117), the value still in
force after file ingestion since no configuration-file key writes it. -/
def default_exit_eof : Bool := true

/-- The whole startup pipeline: operator() runs configure and only on its
success attempts the consumer and producer sessions (acm.cpp 732-745). -/
def process_run (tAcc cAcc : String → String → Bool) (fileOpens : Bool)
    (pairs : List (String × String)) (cli : CliOpts)
    (consumer_ok producer_ok : Bool) : RunOutcome :=
  operator_run (configure tAcc cAcc fileOpens pairs cli).isSome consumer_ok producer_ok

/-- Acceptance function of a conf that rejects every key: convenient for
concrete runs in which all file keys are application-specific. -/
def rejectAll : String → String → Bool := fun _ _ => false

/-- A minimal valid configuration file: the two required topic keys. -/
def basePairs : List (String × String) :=
  [("asn1.j2735.topic.consumer", "raw"), ("asn1.j2735.topic.producer", "filtered")]

/-- A command line supplying only the mandatory configuration-file option. -/
def cliBase : CliOpts :=
  { c_set := true, b := none, p := none, g := none, o := none
    x := false, d := none, t := none }

-- ----------------------------------------------------------------------
-- Topic availability wait (ASN1_Codec::launch_consumer, acm.cpp 605-652)
-- ----------------------------------------------------------------------

/-- One iteration's environment snapshot during the availability wait: the
value the static data_available flag holds when the while condition reads it,
and the outcome of the metadata fetch the iteration would perform (none for a
fetch that fails with an error code). -/
structure Probe where
  dataAvail : Bool
  metadata : Option (List String)
deriving DecidableEq

/-- ASN1_Codec::topic_available (acm.cpp 216-240): on a successful metadata
fetch the returned topic list is scanned for an exact name match; on a failed
fetch the error is logged and r stays false, so the caller sees
topic-not-found. -/
def topic_available (md : Option (List String)) (topic : String) : Bool :=
  match md with
  | none => false
  | some ts => ts.contains topic

/-- How the inner while loop for one topic (acm.cpp 619-629) ends: the topic
was confirmed and counted (break after ++tcount), or the while condition went
false.  Each constructor carries the probe trace left for later iterations. -/
inductive WaitStep where
  | confirmed (rest : List Probe)
  | cancelled (rest : List Probe)
deriving DecidableEq

/-- The inner while loop for one topic, consuming one probe per iteration;
none when the trace runs out while the loop is still waiting.  A probe that
does not confirm the topic is followed by the 1500 ms sleep and a retry. -/
def waitOne (tcount total : Nat) (topic : String) : List Probe → Option WaitStep
  | [] => none
  | p :: ps =>
      if p.dataAvail && decide (tcount < total) then
        if topic_available p.metadata topic then some (.confirmed ps)
        else waitOne tcount total topic ps
      else some (.cancelled (p :: ps))

/-- The for loop over consumed_topics (acm.cpp 617-630): the final tcount and
the unconsumed trace. -/
def waitAll (tcount total : Nat) (topics : List String) (ps : List Probe) :
    Option (Nat × List Probe) :=
  match topics with
  | [] => some (tcount, ps)
  | t :: ts =>
      match waitOne tcount total t ps with
      | none => none
      | some (.confirmed rest) => waitAll (tcount + 1) total ts rest
      | some (.cancelled rest) => waitAll tcount total ts rest

/-- launch_consumer's availability wait and subscription decision (acm.cpp
617-642): some true when tcount reached the topic count, so subscription is
attempted; some false when it did not, so launch_consumer returns false
without subscribing (acm.cpp 639-642). -/
def consumer_wait_subscribes (topics : List String) (ps : List Probe) : Option Bool :=
  match waitAll 0 topics.length topics ps with
  | none => none
  | some (tc, _) => some (decide (tc = topics.length))

-- ----------------------------------------------------------------------
-- Helper lemmas
-- ----------------------------------------------------------------------

/-- msg_consume never changes the exit_eof configuration flag. -/
theorem msg_consume_exit_eof (s : CodecState) (m : MsgEvent) :
    (msg_consume s m).1.exit_eof = s.exit_eof := by
  cases hst : m.status <;>
    simp only [msg_consume, hst] <;>
    (repeat' split) <;> rfl

/-- msg_consume never changes partition_cnt. -/
theorem msg_consume_partition_cnt (s : CodecState) (m : MsgEvent) :
    (msg_consume s m).1.partition_cnt = s.partition_cnt := by
  cases hst : m.status <;>
    simp only [msg_consume, hst] <;>
    (repeat' split) <;> rfl

/-- msg_consume never sets data_available back to true. -/
theorem msg_consume_data_available_mono (s : CodecState) (m : MsgEvent)
    (h : s.data_available = false) : (msg_consume s m).1.data_available = false := by
  cases hst : m.status <;>
    simp only [msg_consume, hst] <;>
    (repeat' split) <;> simp [h]

/-- Once data_available is cleared, a run of msg_consume leaves it cleared. -/
theorem msg_consume_run_data_available_mono (ms : List MsgEvent) :
    ∀ s : CodecState, s.data_available = false →
      (msg_consume_run s ms).data_available = false := by
  induction ms with
  | nil => intro s h; exact h
  | cons m ms ih =>
      intro s h
      exact ih _ (msg_consume_data_available_mono s m h)

/-- With exit_eof set, the first_block update of a NO_ERROR message. -/
theorem msg_consume_first_block (s : CodecState) (m : MsgEvent) :
    (msg_consume s m).1.first_block =
      (s.first_block && !(isDecodeCall m && m.decode_ok)) := by
  cases hst : m.status <;> cases hd : m.decode_ok <;>
    simp only [msg_consume, isDecodeCall, hst, hd] <;>
    (repeat' split) <;> simp_all

/-- The eof_cnt update of a single message, with exit_eof set. -/
theorem msg_consume_eof_cnt_step (s : CodecState) (m : MsgEvent)
    (hx : s.exit_eof = true) :
    (msg_consume s m).1.eof_cnt = s.eof_cnt + (if isEOF m then 1 else 0) := by
  cases hst : m.status <;>
    simp only [msg_consume, hst, isEOF, hx] <;>
    (repeat' split) <;> simp_all

/-- eofCount over a cons. -/
theorem eofCount_cons (m : MsgEvent) (ms : List MsgEvent) :
    eofCount (m :: ms) = (if isEOF m then 1 else 0) + eofCount ms := by
  simp only [eofCount, List.filter_cons]
  cases isEOF m <;> simp [Nat.add_comm]

/-- With exit_eof set, a run's eof_cnt grows by exactly the number of
PARTITION_EOF statuses processed. -/
theorem msg_consume_run_eof_cnt (ms : List MsgEvent) :
    ∀ s : CodecState, s.exit_eof = true →
      (msg_consume_run s ms).eof_cnt = s.eof_cnt + eofCount ms := by
  induction ms with
  | nil => intro s _; simp [msg_consume_run, eofCount]
  | cons m ms ih =>
      intro s hx
      have hx' : (msg_consume s m).1.exit_eof = true := by
        rw [msg_consume_exit_eof]; exact hx
      have hrun : msg_consume_run s (m :: ms) = msg_consume_run (msg_consume s m).1 ms := rfl
      rw [hrun, ih _ hx', msg_consume_eof_cnt_step s m hx, eofCount_cons]
      rw [Nat.add_assoc]

/-- The EOF-termination iff: over benign statuses, with exit_eof set and
eof_cnt still short of partition_cnt, the run clears data_available exactly
when the EOF count closes the gap. -/
theorem msg_consume_run_data_available_iff (ms : List MsgEvent) :
    ∀ s : CodecState, s.exit_eof = true → (∀ m ∈ ms, benignStatus m = true) →
      s.data_available = true → s.eof_cnt < s.partition_cnt →
      ((msg_consume_run s ms).data_available = false ↔
        s.partition_cnt ≤ s.eof_cnt + eofCount ms) := by
  induction ms with
  | nil =>
      intro s _ _ hd hlt
      simp [msg_consume_run, eofCount, hd]
      omega
  | cons m ms ih =>
      intro s hx hb hd hlt
      have hbm : benignStatus m = true := hb m (List.mem_cons_self m ms)
      have hbs : ∀ m' ∈ ms, benignStatus m' = true :=
        fun m' hm' => hb m' (List.mem_cons_of_mem m hm')
      have hrun : msg_consume_run s (m :: ms) = msg_consume_run (msg_consume s m).1 ms := rfl
      rw [hrun]
      cases hst : m.status
      case timedOut =>
        have hm : msg_consume s m = (s, false) := by simp [msg_consume, hst]
        have he : eofCount (m :: ms) = eofCount ms := by
          simp [eofCount, List.filter, isEOF, hst]
        rw [hm, he]
        exact ih s hx hbs hd hlt
      case noError =>
        have he : eofCount (m :: ms) = eofCount ms := by
          simp [eofCount, List.filter, isEOF, hst]
        have h1 : (msg_consume s m).1.exit_eof = true := by
          rw [msg_consume_exit_eof]; exact hx
        have h2 : (msg_consume s m).1.data_available = s.data_available := by
          cases hdk : m.decode_ok <;> cases hek : m.encode_ok <;>
            simp [msg_consume, hst, hdk, hek]
        have h3 : (msg_consume s m).1.eof_cnt = s.eof_cnt := by
          cases hdk : m.decode_ok <;> cases hek : m.encode_ok <;>
            simp [msg_consume, hst, hdk, hek]
        have h4 : (msg_consume s m).1.partition_cnt = s.partition_cnt :=
          msg_consume_partition_cnt s m
        rw [he]
        have := ih (msg_consume s m).1 h1 hbs (by rw [h2]; exact hd) (by rw [h3, h4]; exact hlt)
        rw [this, h3, h4]
      case partitionEOF =>
        have he : eofCount (m :: ms) = 1 + eofCount ms := by
          simp [eofCount, List.filter, isEOF, hst]
          omega
        rw [he]
        by_cases hhit : s.eof_cnt + 1 = s.partition_cnt
        · have hm : (msg_consume s m).1 =
              { s with eof_cnt := s.eof_cnt + 1, data_available := false } := by
            simp [msg_consume, hst, hx, hhit]
          rw [hm]
          have : (msg_consume_run { s with eof_cnt := s.eof_cnt + 1, data_available := false } ms).data_available = false :=
            msg_consume_run_data_available_mono ms _ rfl
          rw [this]
          constructor
          · intro _; omega
          · intro _; rfl
        · have hm : (msg_consume s m).1 = { s with eof_cnt := s.eof_cnt + 1 } := by
            simp [msg_consume, hst, hx, hhit]
          rw [hm]
          have hlt' : s.eof_cnt + 1 < s.partition_cnt := by omega
          have := ih { s with eof_cnt := s.eof_cnt + 1 } (by simp [hx]) hbs (by simp [hd]) (by simpa using hlt')
          rw [this]
          simp
          omega
      case unknownTopic => simp [benignStatus, hst] at hbm
      case unknownPartition => simp [benignStatus, hst] at hbm
      case otherError => simp [benignStatus, hst] at hbm

/-- The decoder-invocation flags of a run are the reference one-bit trace of
its decode outcomes. -/
theorem decode_flags_eq (ms : List MsgEvent) :
    ∀ s : CodecState,
      decode_flags s ms = firstBlockTrace s.first_block (decodeOutcomes ms) := by
  induction ms with
  | nil => intro s; rfl
  | cons m ms ih =>
      intro s
      have hfb := msg_consume_first_block s m
      cases hst : m.status
      case noError =>
        have hic : isDecodeCall m = true := by simp [isDecodeCall, hst]
        have hout : decodeOutcomes (m :: ms) = m.decode_ok :: decodeOutcomes ms := by
          simp [decodeOutcomes, List.filter_cons, hic]
        have hdf : decode_flags s (m :: ms) =
            s.first_block :: decode_flags (msg_consume s m).1 ms := by
          simp [decode_flags, hst]
        rw [hout, hdf, ih (msg_consume s m).1, hfb, hic]
        simp [firstBlockTrace]
      all_goals
        have hic : isDecodeCall m = false := by simp [isDecodeCall, hst]
        have hout : decodeOutcomes (m :: ms) = decodeOutcomes ms := by
          simp [decodeOutcomes, List.filter_cons, hic]
        have hdf : decode_flags s (m :: ms) = decode_flags (msg_consume s m).1 ms := by
          simp [decode_flags, hst]
        rw [hout, hdf, ih (msg_consume s m).1, hfb, hic]
        simp

/-- The reference trace has one flag per call. -/
theorem firstBlockTrace_length (os : List Bool) :
    ∀ fb : Bool, (firstBlockTrace fb os).length = os.length := by
  induction os with
  | nil => intro fb; rfl
  | cons ok rest ih => intro fb; simp [firstBlockTrace, ih]

/-- A bounded forall over a cons of flags, split into head and tail. -/
theorem forall_lt_succ_cons (ok : Bool) (rest : List Bool) (k : Nat) :
    (∀ j, j < k + 1 → (ok :: rest).getD j true = false) ↔
      (ok = false ∧ ∀ j, j < k → rest.getD j true = false) := by
  constructor
  · intro hall
    refine ⟨by simpa using hall 0 (by omega), ?_⟩
    intro j hj
    simpa using hall (j + 1) (by omega)
  · rintro ⟨hok, hall⟩
    intro j hj
    cases j with
    | zero => simpa using hok
    | succ l => simpa using hall l (by omega)

/-- Positional reading of the reference trace: the flag at call i is set
exactly when the initial flag was set and every earlier call failed. -/
theorem firstBlockTrace_getD (os : List Bool) :
    ∀ (fb : Bool) (i : Nat), i < os.length →
      ((firstBlockTrace fb os).getD i false = true ↔
        (fb = true ∧ ∀ j, j < i → os.getD j true = false)) := by
  induction os with
  | nil => intro fb i h; simp at h
  | cons ok rest ih =>
      intro fb i h
      cases i with
      | zero => simp [firstBlockTrace]
      | succ k =>
          have hk : k < rest.length := by simpa using h
          have lhs : (firstBlockTrace fb (ok :: rest)).getD (k + 1) false =
              (firstBlockTrace (fb && !ok) rest).getD k false := by
            simp [firstBlockTrace]
          rw [lhs, ih (fb && !ok) k hk, forall_lt_succ_cons]
          constructor
          · rintro ⟨hand, hall⟩
            have hfb : fb = true := by cases fb <;> simp_all
            have hok : ok = false := by cases ok <;> simp_all
            exact ⟨hfb, hok, hall⟩
          · rintro ⟨hfb, hok, hall⟩
            exact ⟨by simp [hfb, hok], hall⟩

/-- eofCount distributes over append. -/
theorem eofCount_append (xs ys : List MsgEvent) :
    eofCount (xs ++ ys) = eofCount xs + eofCount ys := by
  simp [eofCount, List.filter_append]

/-- msg_consume never changes the send counters. -/
theorem msg_consume_send_frame (s : CodecState) (m : MsgEvent) :
    (msg_consume s m).1.msg_send_count = s.msg_send_count ∧
    (msg_consume s m).1.msg_send_bytes = s.msg_send_bytes := by
  cases hst : m.status <;> cases hdk : m.decode_ok <;> cases hek : m.encode_ok <;>
    simp [msg_consume, hst, hdk, hek] <;> (repeat' split) <;> simp

/-- A NO_ERROR message never changes data_available. -/
theorem msg_consume_noerror_data_available (s : CodecState) (m : MsgEvent)
    (hst : m.status = MsgStatus.noError) :
    (msg_consume s m).1.data_available = s.data_available := by
  cases hdk : m.decode_ok <;> cases hek : m.encode_ok <;>
    simp [msg_consume, hst, hdk, hek]

/-- msg_consume returns false when the decode or the encode fails. -/
theorem msg_consume_fail_false (s : CodecState) (m : MsgEvent)
    (hst : m.status = MsgStatus.noError)
    (hfail : m.decode_ok = false ∨ m.encode_ok = false) :
    (msg_consume s m).2 = false := by
  rcases hfail with h | h <;>
    cases hdk : m.decode_ok <;> cases hek : m.encode_ok <;>
      simp_all [msg_consume, hst]

/-- The remaining probe trace an inner wait leaves behind. -/
def waitRest : WaitStep → List Probe
  | .confirmed r => r
  | .cancelled r => r

/-- A confirmed inner wait consumed a probe that actually confirmed the
topic. -/
theorem waitOne_confirmed_probe (tcount total : Nat) (topic : String) :
    ∀ (ps rest : List Probe),
      waitOne tcount total topic ps = some (.confirmed rest) →
      ∃ p ∈ ps, topic_available p.metadata topic = true := by
  intro ps
  induction ps with
  | nil => intro rest h; simp [waitOne] at h
  | cons p ps ih =>
      intro rest h
      simp only [waitOne] at h
      by_cases hc : (p.dataAvail && decide (tcount < total)) = true
      · rw [if_pos hc] at h
        by_cases hav : topic_available p.metadata topic = true
        · exact ⟨p, List.mem_cons_self p ps, hav⟩
        · rw [if_neg hav] at h
          obtain ⟨q, hq, hqa⟩ := ih rest h
          exact ⟨q, List.mem_cons_of_mem p hq, hqa⟩
      · rw [if_neg hc] at h
        simp at h

/-- The probes an inner wait leaves over were among its input probes. -/
theorem waitOne_rest_mem (tcount total : Nat) (topic : String) :
    ∀ (ps : List Probe) (st : WaitStep),
      waitOne tcount total topic ps = some st →
      ∀ q ∈ waitRest st, q ∈ ps := by
  intro ps
  induction ps with
  | nil => intro st h; simp [waitOne] at h
  | cons p ps ih =>
      intro st h q hq
      simp only [waitOne] at h
      by_cases hc : (p.dataAvail && decide (tcount < total)) = true
      · rw [if_pos hc] at h
        by_cases hav : topic_available p.metadata topic = true
        · rw [if_pos hav] at h
          obtain rfl : WaitStep.confirmed ps = st := Option.some_injective _ h
          exact List.mem_cons_of_mem p hq
        · rw [if_neg hav] at h
          exact List.mem_cons_of_mem p (ih st h q hq)
      · rw [if_neg hc] at h
        obtain rfl : WaitStep.cancelled (p :: ps) = st := Option.some_injective _ h
        exact hq

/-- The outer wait's count bound, and completeness of confirmation when the
count reaches the topic total. -/
theorem waitAll_spec (topics : List String) :
    ∀ (tcount total : Nat) (ps : List Probe) (tc : Nat) (rest : List Probe),
      waitAll tcount total topics ps = some (tc, rest) →
      tc ≤ tcount + topics.length ∧
      (tc = tcount + topics.length →
        ∀ t ∈ topics, ∃ p ∈ ps, topic_available p.metadata t = true) := by
  induction topics with
  | nil =>
      intro tcount total ps tc rest h
      simp only [waitAll] at h
      obtain ⟨rfl, rfl⟩ : tcount = tc ∧ ps = rest := by
        have := Option.some_injective _ h
        exact ⟨congrArg Prod.fst this, congrArg Prod.snd this⟩
      exact ⟨by simp, by intro _ t ht; simp at ht⟩
  | cons t ts ih =>
      intro tcount total ps tc rest h
      simp only [waitAll] at h
      cases hw : waitOne tcount total t ps with
      | none => rw [hw] at h; simp at h
      | some st =>
          rw [hw] at h
          cases st with
          | confirmed r =>
              obtain ⟨hb, hcomp⟩ := ih (tcount + 1) total r tc rest h
              refine ⟨by simpa using Nat.le_trans hb (by omega), ?_⟩
              intro heq t' ht'
              rcases List.mem_cons.mp ht' with rfl | hmem
              · exact waitOne_confirmed_probe tcount total t' ps r hw
              · obtain ⟨p, hp, hav⟩ := hcomp (by simp at heq ⊢; omega) t' hmem
                exact ⟨p, waitOne_rest_mem tcount total t ps (.confirmed r) hw p hp, hav⟩
          | cancelled r =>
              obtain ⟨hb, _⟩ := ih tcount total r tc rest h
              refine ⟨by simp; omega, ?_⟩
              intro heq
              exfalso
              simp at heq
              omega

/-- When the cancellation flag is already cleared, every topic's inner wait
exits at once and the count never advances. -/
theorem waitAll_cancelled (topics : List String) :
    ∀ (tcount total : Nat) (ps : List Probe),
      (∀ p ∈ ps, p.dataAvail = false) → ps ≠ [] →
      waitAll tcount total topics ps = some (tcount, ps) := by
  induction topics with
  | nil => intro tcount total ps _ _; rfl
  | cons t ts ih =>
      intro tcount total ps hfalse hne
      cases ps with
      | nil => exact absurd rfl hne
      | cons p ps' =>
          have hpd : p.dataAvail = false := hfalse p (List.mem_cons_self p ps')
          have hw : waitOne tcount total t (p :: ps') =
              some (.cancelled (p :: ps')) := by
            simp [waitOne, hpd]
          simp only [waitAll, hw]
          exact ih tcount total (p :: ps') hfalse hne

-- ----------------------------------------------------------------------
-- The claims
-- ----------------------------------------------------------------------

/-- C1: the claim says the exit status is non-zero whenever launch_consumer
or launch_producer returns false.  In the code (acm.cpp 744-745) those paths
execute `return false;` inside int operator(), so the process exit status on
a session-establishment failure is 0 — the same value as EXIT_SUCCESS —
while a configure failure does return EXIT_FAILURE. -/
theorem operator_session_failure_exit_status :
    (operator_run true false true).exit_status = 0 ∧
    (operator_run true true false).exit_status = 0 ∧
    (operator_run false true true).exit_status = EXIT_FAILURE ∧
    (operator_run true true true).exit_status = EXIT_SUCCESS ∧
    EXIT_FAILURE ≠ 0 ∧ EXIT_SUCCESS = 0 := by
  decide

/-- C2: with the exit-on-eof flag set and only non-fatal statuses polled,
every PARTITION_EOF increments eof_cnt, data_available ends cleared exactly
when the EOF count reaches partition_cnt (so fewer EOFs than partitions never
terminate the loop through EOF accounting), and with partition_cnt = 1 the
run up to and including the first PARTITION_EOF ends with eof_cnt = 1 and
data_available cleared. -/
theorem eof_accounting (s : CodecState) (ms : List MsgEvent)
    (hx : s.exit_eof = true) (hb : ∀ m ∈ ms, benignStatus m = true)
    (hc : s.eof_cnt = 0) (hd : s.data_available = true)
    (hp : 0 < s.partition_cnt) :
    (msg_consume_run s ms).eof_cnt = eofCount ms ∧
    ((msg_consume_run s ms).data_available = false ↔ s.partition_cnt ≤ eofCount ms) ∧
    (s.partition_cnt = 1 →
      ∀ pre m rest, ms = pre ++ m :: rest → eofCount pre = 0 → isEOF m = true →
        (msg_consume_run s (pre ++ [m])).eof_cnt = 1 ∧
        (msg_consume_run s (pre ++ [m])).data_available = false) := by
  refine ⟨?_, ?_, ?_⟩
  · have := msg_consume_run_eof_cnt ms s hx
    omega
  · have := msg_consume_run_data_available_iff ms s hx hb hd (by omega)
    rw [this]
    omega
  · intro hp1 pre m rest hms hpre hm
    have hb' : ∀ m' ∈ pre ++ [m], benignStatus m' = true := by
      intro m' hm'
      apply hb
      rw [hms]
      rcases List.mem_append.mp hm' with h | h
      · exact List.mem_append.mpr (Or.inl h)
      · simp only [List.mem_singleton] at h
        subst h
        exact List.mem_append.mpr (Or.inr (List.mem_cons_self m' rest))
    have hcnt : eofCount (pre ++ [m]) = 1 := by
      rw [eofCount_append, hpre]
      simp [eofCount, List.filter, hm]
    have h1 := msg_consume_run_eof_cnt (pre ++ [m]) s hx
    have h2 := msg_consume_run_data_available_iff (pre ++ [m]) s hx hb' hd (by omega)
    refine ⟨by omega, ?_⟩
    rw [h2]
    omega

/-- C2 witness: a single PARTITION_EOF from the constructor state with
partition_cnt = 1. -/
theorem eof_accounting_witness :
    (msg_consume_run initState [eofEvt]).eof_cnt = eofCount [eofEvt] ∧
    ((msg_consume_run initState [eofEvt]).data_available = false ↔
      initState.partition_cnt ≤ eofCount [eofEvt]) ∧
    (initState.partition_cnt = 1 →
      ∀ pre m rest, [eofEvt] = pre ++ m :: rest → eofCount pre = 0 → isEOF m = true →
        (msg_consume_run initState (pre ++ [m])).eof_cnt = 1 ∧
        (msg_consume_run initState (pre ++ [m])).data_available = false) :=
  eof_accounting initState [eofEvt] rfl (by decide) rfl rfl (by decide)

/-- C3 counterexample: the claim says first_block is true for exactly one
decode invocation regardless of intervening decode failures, but after a
failed first decode the flag is still true at the second invocation: this
two-message run has two invocations with the flag set. -/
theorem first_block_two_true_flags :
    decode_flags initState [decodeFailEvt, decodeOkEvt] = [true, true] ∧
    (decode_flags initState [decodeFailEvt, decodeOkEvt]).count true = 2 := by
  decide

/-- C3 (amended): starting with first_block set, the decoder sees the flag
set at an invocation exactly when every earlier invocation's decode failed —
so it is set for every invocation up to and including the first successful
decode and clear for all later ones, and a decode failure does not clear
it. -/
theorem first_block_until_first_success (s : CodecState) (ms : List MsgEvent)
    (hfb : s.first_block = true) :
    (decode_flags s ms).length = (decodeOutcomes ms).length ∧
    ∀ i, i < (decode_flags s ms).length →
      ((decode_flags s ms).getD i false = true ↔
        ∀ j, j < i → (decodeOutcomes ms).getD j true = false) := by
  have heq := decode_flags_eq ms s
  rw [hfb] at heq
  constructor
  · rw [heq, firstBlockTrace_length]
  · intro i hi
    rw [heq] at hi ⊢
    rw [firstBlockTrace_length] at hi
    rw [firstBlockTrace_getD (decodeOutcomes ms) true i hi]
    simp

/-- C3 witness: a failed decode followed by a successful one, from the
constructor state. -/
theorem first_block_until_first_success_witness :
    (decode_flags initState [decodeFailEvt, decodeOkEvt]).length =
      (decodeOutcomes [decodeFailEvt, decodeOkEvt]).length ∧
    ∀ i, i < (decode_flags initState [decodeFailEvt, decodeOkEvt]).length →
      ((decode_flags initState [decodeFailEvt, decodeOkEvt]).getD i false = true ↔
        ∀ j, j < i →
          (decodeOutcomes [decodeFailEvt, decodeOkEvt]).getD j true = false) :=
  first_block_until_first_success initState [decodeFailEvt, decodeOkEvt] rfl

/-- C4: a partition value that fails std::stoi makes configure throw
(modelled as none); a consumer-timeout value that fails std::stoi is caught
and leaves the documented 500 ms default with configure succeeding; but a
literal offset value that fails to parse does not raise any error — strtoll
returns 0, so configure succeeds with offset silently defaulted to byte 0,
contradicting the claim for the offset field. -/
theorem configure_numeric_parse_asymmetry :
    configure rejectAll rejectAll true
      (basePairs ++ [("asn1.j2735.kafka.partition", "oops")]) cliBase = none ∧
    (configure rejectAll rejectAll true
      (basePairs ++ [("asn1.j2735.consumer.timeout.ms", "oops")]) cliBase).map
        (fun r => r.consumer_timeout) = some 500 ∧
    (configure rejectAll rejectAll true basePairs
      { cliBase with o := some "xyz" }).map (fun r => r.offset) = some 0 ∧
    stoi "xyz" = none := by
  decide

/-- C6 counterexample: the claim says each key is classified into exactly
one of the three domains, but when both the topic-level and the broker-level
conf accept a key (the spec itself notes a key may apply to both) the pair is
stored in both, i.e. in two domains. -/
theorem classify_both_accept_two_domains :
    storeCount (classifyPair (fun _ _ => true) (fun _ _ => true) "k" "v") = 2 := by
  decide

/-- C6 (amended): each well-formed pair is offered to the topic-level conf
and to the broker-level conf independently, lands in pconf exactly when both
reject it, and is always classified into at least one domain — but a key
both confs accept lands in two. -/
theorem classify_trial_acceptance (tAcc cAcc : String → String → Bool)
    (k v : String) :
    (classifyPair tAcc cAcc k v).1 = tAcc k v ∧
    (classifyPair tAcc cAcc k v).2.1 = cAcc k v ∧
    ((classifyPair tAcc cAcc k v).2.2 = true ↔
      tAcc k v = false ∧ cAcc k v = false) ∧
    1 ≤ storeCount (classifyPair tAcc cAcc k v) := by
  cases ht : tAcc k v <;> cases hc : cAcc k v <;>
    simp [classifyPair, ingestPair, storeCount, ht, hc]

/-- C7: on a NO_ERROR message whose decode yields no structure or whose
xer_buf encode fails, the loop iteration publishes nothing (produce is not
invoked), leaves msg_send_count and msg_send_bytes unchanged, and leaves
data_available unchanged, so the loop simply continues. -/
theorem message_error_frame (s : CodecState) (m : MsgEvent)
    (hst : m.status = MsgStatus.noError)
    (hfail : m.decode_ok = false ∨ m.encode_ok = false) :
    (relay_step s m).2 = none ∧
    (relay_step s m).1.msg_send_count = s.msg_send_count ∧
    (relay_step s m).1.msg_send_bytes = s.msg_send_bytes ∧
    (relay_step s m).1.data_available = s.data_available := by
  have h2 := msg_consume_fail_false s m hst hfail
  have h3 := msg_consume_send_frame s m
  have h4 := msg_consume_noerror_data_available s m hst
  by_cases hlen : 0 < m.len
  · have hr : relay_step s m = ((msg_consume s m).1, none) := by
      simp [relay_step, hlen, h2]
    rw [hr]
    exact ⟨rfl, h3.1, h3.2, h4⟩
  · have hr : relay_step s m = (s, none) := by simp [relay_step, hlen]
    rw [hr]
    exact ⟨rfl, rfl, rfl, rfl⟩

/-- C7 witness: a failed decode of a 10-byte message. -/
theorem message_error_frame_witness :
    (relay_step initState decodeFailEvt).2 = none ∧
    (relay_step initState decodeFailEvt).1.msg_send_count = initState.msg_send_count ∧
    (relay_step initState decodeFailEvt).1.msg_send_bytes = initState.msg_send_bytes ∧
    (relay_step initState decodeFailEvt).1.data_available = initState.data_available :=
  message_error_frame initState decodeFailEvt rfl (Or.inl rfl)

/-- C9: the availability wait reports success to the subscription step only
when every topic of consumed_topics was individually confirmed by some probe;
with the cancellation flag cleared it reports failure (launch_consumer then
returns false without subscribing); and a failed metadata fetch behaves
exactly like topic-not-found — the wait just retries on the remaining
trace. -/
theorem consumer_wait_spec :
    (∀ (topics : List String) (ps : List Probe),
      consumer_wait_subscribes topics ps = some true →
      ∀ t ∈ topics, ∃ p ∈ ps, topic_available p.metadata t = true) ∧
    (∀ (topics : List String) (ps : List Probe),
      (∀ p ∈ ps, p.dataAvail = false) → topics ≠ [] → ps ≠ [] →
      consumer_wait_subscribes topics ps = some false) ∧
    (∀ (tcount total : Nat) (topic : String) (ps : List Probe), tcount < total →
      waitOne tcount total topic ({ dataAvail := true, metadata := none } :: ps) =
        waitOne tcount total topic ps) := by
  refine ⟨?_, ?_, ?_⟩
  · intro topics ps h t ht
    unfold consumer_wait_subscribes at h
    cases hw : waitAll 0 topics.length topics ps with
    | none => rw [hw] at h; simp at h
    | some pr =>
        obtain ⟨tc, rest⟩ := pr
        rw [hw] at h
        simp only [Option.some_inj, decide_eq_true_eq] at h
        have := (waitAll_spec topics 0 topics.length ps tc rest hw).2
        exact this (by omega) t ht
  · intro topics ps hf ht hp
    have hall := waitAll_cancelled topics 0 topics.length ps hf hp
    unfold consumer_wait_subscribes
    rw [hall]
    cases topics with
    | nil => exact absurd rfl ht
    | cons a as => simp
  · intro tcount total topic ps h
    simp [waitOne, topic_available, h]

/-- C10: a polled message of length zero — whatever its status, PARTITION_EOF
included — never reaches msg_consume: the loop iteration changes no state at
all (no counters, no eof_cnt, no data_available) and produces nothing. -/
theorem zero_length_message_frame (s : CodecState) (m : MsgEvent)
    (h : m.len = 0) : relay_step s m = (s, none) := by
  simp [relay_step, h]

/-- C10 witness: a zero-length PARTITION_EOF message from the constructor
state. -/
theorem zero_length_message_frame_witness :
    relay_step initState eofEvt = (initState, none) :=
  zero_length_message_frame initState eofEvt rfl

/-- Setting one key cannot change the lookup of a different key. -/
theorem lookup_confSet_ne (m : ConfMap) (acc : String → String → Bool)
    (k k' v : String) (hne : (k' == k) = false) :
    List.lookup k' (confSet m acc k v) = List.lookup k' m := by
  unfold confSet
  split
  · simp [List.lookup, hne]
  · rfl

/-- The broker override never touches pconf. -/
theorem applyBroker_pconf (cAcc : String → String → Bool) (st : ConfState)
    (b : Option String) : (applyBroker cAcc st b).pconf = st.pconf := by
  cases b <;> rfl

/-- The broker override writes only the metadata.broker.list key. -/
theorem applyBroker_lookup_ne (cAcc : String → String → Bool) (st : ConfState)
    (b : Option String) (k : String)
    (hne : (k == "metadata.broker.list") = false) :
    List.lookup k (applyBroker cAcc st b).conf = List.lookup k st.conf := by
  cases b with
  | none => rfl
  | some bv => exact lookup_confSet_ne st.conf cAcc "metadata.broker.list" k bv hne

/-- The group override never touches pconf. -/
theorem applyGroup_pconf (cAcc : String → String → Bool) (st st' : ConfState)
    (g : Option String) (h : applyGroup cAcc st g = some st') :
    st'.pconf = st.pconf := by
  cases g with
  | none =>
      obtain rfl := Option.some_inj.mp h
      rfl
  | some gv =>
      simp only [applyGroup] at h
      split at h
      · obtain rfl := Option.some_inj.mp h
        rfl
      · simp at h

/-- The group override writes only the group.id key. -/
theorem applyGroup_lookup_ne (cAcc : String → String → Bool) (st st' : ConfState)
    (g : Option String) (k : String) (hne : (k == "group.id") = false)
    (h : applyGroup cAcc st g = some st') :
    List.lookup k st'.conf = List.lookup k st.conf := by
  cases g with
  | none =>
      obtain rfl := Option.some_inj.mp h
      rfl
  | some gv =>
      simp only [applyGroup] at h
      split at h
      · obtain rfl := Option.some_inj.mp h
        exact lookup_confSet_ne st.conf cAcc "group.id" k gv hne
      · simp at h

/-- The debug override never touches pconf. -/
theorem applyDebug_pconf (cAcc : String → String → Bool) (st st' : ConfState)
    (d : Option String) (h : applyDebug cAcc st d = some st') :
    st'.pconf = st.pconf := by
  cases d with
  | none =>
      obtain rfl := Option.some_inj.mp h
      rfl
  | some dv =>
      simp only [applyDebug] at h
      split at h
      · obtain rfl := Option.some_inj.mp h
        rfl
      · simp at h

/-- The debug override writes only the debug key. -/
theorem applyDebug_lookup_ne (cAcc : String → String → Bool) (st st' : ConfState)
    (d : Option String) (k : String) (hne : (k == "debug") = false)
    (h : applyDebug cAcc st d = some st') :
    List.lookup k st'.conf = List.lookup k st.conf := by
  cases d with
  | none =>
      obtain rfl := Option.some_inj.mp h
      rfl
  | some dv =>
      simp only [applyDebug] at h
      split at h
      · obtain rfl := Option.some_inj.mp h
        exact lookup_confSet_ne st.conf cAcc "debug" k dv hne
      · simp at h

/-- The file-derived partition only depends on pconf, which the broker
override does not touch. -/
theorem filePartition_applyBroker (cAcc : String → String → Bool)
    (st : ConfState) (b : Option String) :
    filePartition (applyBroker cAcc st b) = filePartition st := by
  cases b <;> rfl

/-- Inversion of a successful configure: every resolved field in terms of
the ingested file state and the CLI. -/
theorem configure_some_spec (tAcc cAcc : String → String → Bool)
    (fileOpens : Bool) (pairs : List (String × String)) (cli : CliOpts)
    (r : ConfigResult) (h : configure tAcc cAcc fileOpens pairs cli = some r) :
    r.exit_eof = cli.x ∧
    r.st.pconf = (ingestFile tAcc cAcc pairs).pconf ∧
    (∃ ct, List.lookup "asn1.j2735.topic.consumer"
        (ingestFile tAcc cAcc pairs).pconf = some ct ∧ r.consumed_topics = [ct]) ∧
    (cli.t = none → ∃ pt, List.lookup "asn1.j2735.topic.producer"
        (ingestFile tAcc cAcc pairs).pconf = some pt ∧
        r.published_topic_name = pt) ∧
    (cli.b = none → List.lookup "metadata.broker.list" r.st.conf =
        List.lookup "metadata.broker.list" (ingestFile tAcc cAcc pairs).conf) ∧
    (cli.p = none → some r.partition = filePartition (ingestFile tAcc cAcc pairs)) ∧
    (∀ n, cli.p = some n → r.partition = n) ∧
    (cli.g = none → List.lookup "group.id" r.st.conf =
        List.lookup "group.id" (ingestFile tAcc cAcc pairs).conf) ∧
    (cli.o = none → r.offset = OFFSET_BEGINNING) ∧
    (∀ ov, cli.o = some ov → r.offset = cliOffset ov) ∧
    (cli.d = none → List.lookup "debug" r.st.conf =
        List.lookup "debug" (ingestFile tAcc cAcc pairs).conf) := by
  unfold configure at h
  cases hcs : cli.c_set <;> rw [hcs] at h
  · simp at h
  · cases hfo : fileOpens <;> rw [hfo] at h
    · simp at h
    · simp only [Bool.not_true] at h
      rw [if_neg (by decide), if_neg (by decide)] at h
      simp only [Option.bind_eq_some] at h
      obtain ⟨part, hpart, st2, hst2, st3, hst3, ct, hct, pub, hpub, hr⟩ := h
      obtain rfl := Option.some_inj.mp hr
      have hpp : st3.pconf = (ingestFile tAcc cAcc pairs).pconf := by
        rw [applyDebug_pconf cAcc st2 st3 cli.d hst3,
          applyGroup_pconf cAcc _ st2 cli.g hst2,
          applyBroker_pconf cAcc _ cli.b]
      refine ⟨rfl, hpp, ?_, ?_, ?_, ?_, ?_, ?_, ?_, ?_, ?_⟩
      · exact ⟨ct, by rw [← hpp]; exact hct, rfl⟩
      · intro ht
        rw [ht] at hpub
        simp only [resolveProducer] at hpub
        exact ⟨pub, by rw [← hpp]; exact hpub, rfl⟩
      · intro hbn
        rw [applyDebug_lookup_ne cAcc st2 st3 cli.d "metadata.broker.list"
            (by decide) hst3,
          applyGroup_lookup_ne cAcc _ st2 cli.g "metadata.broker.list"
            (by decide) hst2, hbn]
        rfl
      · intro hpn
        rw [hpn] at hpart
        simp only [resolvePartition] at hpart
        rw [← hpart, filePartition_applyBroker]
      · intro n hpn
        rw [hpn] at hpart
        simp only [resolvePartition] at hpart
        exact (Option.some_inj.mp hpart).symm
      · intro hgn
        rw [hgn] at hst2
        obtain rfl := Option.some_inj.mp hst2
        rw [applyDebug_lookup_ne cAcc _ st3 cli.d "group.id" (by decide) hst3,
          applyBroker_lookup_ne cAcc _ cli.b "group.id" (by decide)]
      · intro hon
        rw [hon]
        rfl
      · intro ov hon
        rw [hon]
        rfl
      · intro hdn
        rw [hdn] at hst3
        obtain rfl := Option.some_inj.mp hst3
        rw [applyGroup_lookup_ne cAcc _ st2 cli.g "debug" (by decide) hst2,
          applyBroker_lookup_ne cAcc _ cli.b "debug" (by decide)]

/-- C5 counterexample: with -x omitted from the command line, configure still
replaces the in-force exit-on-eof value: the constructor (and hence
post-ingestion) value is true, yet configure resolves it to false, so the
omitted option did not leave the prior value intact. -/
theorem exit_eof_clobbered_without_cli :
    cliBase.x = false ∧ default_exit_eof = true ∧
    (configure rejectAll rejectAll true basePairs cliBase).map
      (fun r => r.exit_eof) = some false := by
  decide

/-- C5 (amended): each of the broker address, partition, group id, offset
and debug overrides replaces the file-derived value only when the option was
supplied, and omitting it leaves the file-derived value intact; the
exit-on-eof flag however is assigned unconditionally from whether -x was
supplied, regardless of the value previously in force. -/
theorem configure_cli_override (tAcc cAcc : String → String → Bool)
    (fileOpens : Bool) (pairs : List (String × String)) (cli : CliOpts)
    (r : ConfigResult) (h : configure tAcc cAcc fileOpens pairs cli = some r) :
    r.exit_eof = cli.x ∧
    (cli.b = none → List.lookup "metadata.broker.list" r.st.conf =
        List.lookup "metadata.broker.list" (ingestFile tAcc cAcc pairs).conf) ∧
    (cli.p = none → some r.partition = filePartition (ingestFile tAcc cAcc pairs)) ∧
    (∀ n, cli.p = some n → r.partition = n) ∧
    (cli.g = none → List.lookup "group.id" r.st.conf =
        List.lookup "group.id" (ingestFile tAcc cAcc pairs).conf) ∧
    (cli.o = none → r.offset = OFFSET_BEGINNING) ∧
    (∀ ov, cli.o = some ov → r.offset = cliOffset ov) ∧
    (cli.d = none → List.lookup "debug" r.st.conf =
        List.lookup "debug" (ingestFile tAcc cAcc pairs).conf) := by
  obtain ⟨h1, -, -, -, h5, h6, h7, h8, h9, h10, h11⟩ :=
    configure_some_spec tAcc cAcc fileOpens pairs cli r h
  exact ⟨h1, h5, h6, h7, h8, h9, h10, h11⟩

/-- The configuration configure resolves basePairs and cliBase to. -/
def resultBase : ConfigResult :=
  { st := { tconf := [], conf := []
            pconf := [("asn1.j2735.topic.producer", "filtered"),
                      ("asn1.j2735.topic.consumer", "raw")] }
    partition := -1
    offset := -2
    exit_eof := false
    consumed_topics := ["raw"]
    published_topic_name := "filtered"
    consumer_timeout := 500 }

/-- C5 witness: the minimal file with every override omitted. -/
theorem configure_cli_override_witness :
    resultBase.exit_eof = cliBase.x ∧
    (cliBase.b = none → List.lookup "metadata.broker.list" resultBase.st.conf =
        List.lookup "metadata.broker.list" (ingestFile rejectAll rejectAll basePairs).conf) ∧
    (cliBase.p = none →
        some resultBase.partition = filePartition (ingestFile rejectAll rejectAll basePairs)) ∧
    (∀ n, cliBase.p = some n → resultBase.partition = n) ∧
    (cliBase.g = none → List.lookup "group.id" resultBase.st.conf =
        List.lookup "group.id" (ingestFile rejectAll rejectAll basePairs).conf) ∧
    (cliBase.o = none → resultBase.offset = OFFSET_BEGINNING) ∧
    (∀ ov, cliBase.o = some ov → resultBase.offset = cliOffset ov) ∧
    (cliBase.d = none → List.lookup "debug" resultBase.st.conf =
        List.lookup "debug" (ingestFile rejectAll rejectAll basePairs).conf) :=
  configure_cli_override rejectAll rejectAll true basePairs cliBase resultBase (by decide)

/-- C8: when the consumer topic key is absent from the ingested
application-specific configuration, or the producer topic key is absent and
-t was not supplied, configure fails, and the process exits with
EXIT_FAILURE without attempting either broker session. -/
theorem configure_missing_topic_fatal (tAcc cAcc : String → String → Bool)
    (fileOpens : Bool) (pairs : List (String × String)) (cli : CliOpts)
    (h : List.lookup "asn1.j2735.topic.consumer"
        (ingestFile tAcc cAcc pairs).pconf = none ∨
      (List.lookup "asn1.j2735.topic.producer"
        (ingestFile tAcc cAcc pairs).pconf = none ∧ cli.t = none)) :
    configure tAcc cAcc fileOpens pairs cli = none ∧
    ∀ consumer_ok producer_ok : Bool,
      process_run tAcc cAcc fileOpens pairs cli consumer_ok producer_ok =
        { exit_status := EXIT_FAILURE
          consumer_launch_attempted := false
          producer_launch_attempted := false } := by
  have hnone : configure tAcc cAcc fileOpens pairs cli = none := by
    cases hcf : configure tAcc cAcc fileOpens pairs cli with
    | none => rfl
    | some r =>
        exfalso
        obtain ⟨-, -, ⟨ct, hct, -⟩, hprod, -⟩ :=
          configure_some_spec tAcc cAcc fileOpens pairs cli r hcf
        rcases h with h1 | ⟨h2, h3⟩
        · rw [h1] at hct
          exact Option.noConfusion hct
        · obtain ⟨pt, hpt, -⟩ := hprod h3
          rw [h2] at hpt
          exact Option.noConfusion hpt
  refine ⟨hnone, ?_⟩
  intro consumer_ok producer_ok
  unfold process_run
  rw [hnone]
  rfl

/-- C8 witness: an empty configuration file. -/
theorem configure_missing_topic_fatal_witness :
    configure rejectAll rejectAll true [] cliBase = none ∧
    ∀ consumer_ok producer_ok : Bool,
      process_run rejectAll rejectAll true [] cliBase consumer_ok producer_ok =
        { exit_status := EXIT_FAILURE
          consumer_launch_attempted := false
          producer_launch_attempted := false } :=
  configure_missing_topic_fatal rejectAll rejectAll true [] cliBase (Or.inl (by decide))
